import Mathlib

/-!
Shallow embedding of the Mandelbrot viewer (`src/main.rs`).

Floating-point (`f64`/`f32`) arithmetic is idealised as exact rational
arithmetic over `ℚ`: every finite double is a rational, and all claims here
concern either exact algebraic identities or integer-valued outcomes that are
stable under this idealisation.  Division totalises as in Lean (`x / 0 = 0`);
wherever a denominator can be zero this is noted at the use site.
-/

namespace BevyFractal

/-- `const MAX_ITERATIONS: u32 = 512` (src/main.rs line 10). -/
def MAX_ITERATIONS : ℕ := 512

/-- `struct ComplexPlaneView { center: DVec2, scale: f64 }` (src/main.rs
lines 14-17); the `DVec2` center is split into its two components. -/
structure ComplexPlaneView where
  centerX : ℚ
  centerY : ℚ
  scale : ℚ
deriving DecidableEq

/-- `impl Default for ComplexPlaneView` (src/main.rs lines 19-27):
center `(-0.75, 0.0)`, scale `3.5`. -/
def ComplexPlaneView.default : ComplexPlaneView :=
  { centerX := -0.75, centerY := 0, scale := 3.5 }

/-- `fn map_range` (src/main.rs lines 224-226). -/
def map_range (val in_min in_max out_min out_max : ℚ) : ℚ :=
  (val - in_min) * (out_max - out_min) / (in_max - in_min) + out_min

/-- The pixel→plane mapping of `draw_mandelbrot_set` (src/main.rs lines
184-193): aspect-corrected bounds from the view, then `map_range` over
`0 ..= width-1` / `0 ..= height-1` with the vertical axis inverted.
`width - 1` is the `u32` (truncated) subtraction, as in the source. -/
def pixelToComplex (v : ComplexPlaneView) (width height : ℕ) (x y : ℕ) :
    ℚ × ℚ :=
  let aspect_ratio : ℚ := (width : ℚ) / (height : ℚ)
  let y_scale := v.scale / aspect_ratio
  let x_min := v.centerX - v.scale / 2
  let x_max := v.centerX + v.scale / 2
  let y_min := v.centerY - y_scale / 2
  let y_max := v.centerY + y_scale / 2
  (map_range (x : ℚ) 0 ((width - 1 : ℕ) : ℚ) x_min x_max,
   map_range (y : ℚ) 0 ((height - 1 : ℕ) : ℚ) y_max y_min)

/-- The cursor→plane conversion inside `handle_zoom` (src/main.rs lines
130-138): note it divides by `width` and `height`, not `width-1`/`height-1`. -/
def cursorToComplex (v : ComplexPlaneView) (width height px py : ℚ) : ℚ × ℚ :=
  let aspect_ratio := width / height
  let complex_height := v.scale / aspect_ratio
  (v.centerX - v.scale / 2 + (px / width) * v.scale,
   v.centerY + complex_height / 2 - (py / height) * complex_height)

/-- One scroll event of `fn handle_zoom` (src/main.rs lines 123-150):
if no cursor position is available the event is dropped, otherwise the
cursor's plane coordinate anchors the zoom with
`zoom_factor = 1 - event.y * 0.1`. -/
def handle_zoom (v : ComplexPlaneView) (width height : ℚ)
    (cursor_pos : Option (ℚ × ℚ)) (scroll_y : ℚ) : ComplexPlaneView :=
  match cursor_pos with
  | none => v
  | some (px, py) =>
    let cursor_complex := cursorToComplex v width height px py
    let zoom_factor := 1 - scroll_y * (1 / 10)
    let new_scale := v.scale * zoom_factor
    { centerX := cursor_complex.1 - (cursor_complex.1 - v.centerX) * zoom_factor,
      centerY := cursor_complex.2 - (cursor_complex.2 - v.centerY) * zoom_factor,
      scale := new_scale }

/-- One tick of `fn handle_panning` (src/main.rs lines 98-119): when the left
button is held it reads the last cursor-moved event of the tick and, if a
previous position is stored, moves the center by
`-(Δx, -Δy) * (scale / window_width)`; releasing the button clears the stored
position.  Returns the updated view and the updated `last_pos` local. -/
def handle_panning (v : ComplexPlaneView) (window_width : ℚ)
    (left_pressed : Bool) (cursor_events : List (ℚ × ℚ))
    (last_pos : Option (ℚ × ℚ)) : ComplexPlaneView × Option (ℚ × ℚ) :=
  if left_pressed then
    match cursor_events.getLast? with
    | some current_pos =>
      match last_pos with
      | some last_pos_val =>
        let delta_x := current_pos.1 - last_pos_val.1
        let delta_y := current_pos.2 - last_pos_val.2
        let delta_complex_x := delta_x * (v.scale / window_width)
        let delta_complex_y := (-delta_y) * (v.scale / window_width)
        ({ v with centerX := v.centerX - delta_complex_x,
                  centerY := v.centerY - delta_complex_y },
         some current_pos)
      | none => (v, some current_pos)
    | none => (v, last_pos)
  else
    (v, none)

/-- The `while zx*zx + zy*zy < 4.0 && i < MAX_ITERATIONS` escape loop of
`draw_mandelbrot_set` (src/main.rs lines 195-204), with the running state
`(zx, zy, i)` made explicit. -/
def escapeGo (cx cy zx zy : ℚ) (i : ℕ) : ℕ :=
  if h : zx * zx + zy * zy < 4 ∧ i < MAX_ITERATIONS then
    escapeGo cx cy (zx * zx - zy * zy + cx) (2 * zx * zy + cy) (i + 1)
  else
    i
termination_by MAX_ITERATIONS - i
decreasing_by
  omega

/-- The escape-time count for a point `c = (cx, cy)`: the loop started from
`z = (0, 0)`, `i = 0` (src/main.rs lines 195-204). -/
def escapeCount (cx cy : ℚ) : ℕ :=
  escapeGo cx cy 0 0 0

/-- Rust's saturating `as u8` cast applied to a nonnegative-capable float
value: negative values clamp to 0, values at or above 256 clamp to 255,
everything else truncates toward zero. -/
def rustCastU8 (x : ℚ) : ℕ :=
  if x < 0 then 0 else min 255 (Int.toNat ⌊x⌋)

/-- The colour computation of `draw_mandelbrot_set` (src/main.rs lines
206-214): black at `MAX_ITERATIONS`, otherwise the polynomial palette on
`n = i / MAX_ITERATIONS`, each channel cast with `as u8` (truncation),
alpha 255.  Returned as the 4-byte RGBA list that is written to the buffer. -/
def colorMap (i : ℕ) : List ℕ :=
  if i = MAX_ITERATIONS then
    [0, 0, 0, 255]
  else
    let n : ℚ := (i : ℚ) / (MAX_ITERATIONS : ℚ)
    [rustCastU8 (9 * (1 - n) * n * n * n * 255),
     rustCastU8 (15 * (1 - n) * (1 - n) * n * n * 255),
     rustCastU8 (8.5 * (1 - n) * (1 - n) * (1 - n) * n * 255),
     255]

/-- The full render pass of `draw_mandelbrot_set` (src/main.rs lines
190-218): row-major, top-to-bottom, each pixel contributing its 4 RGBA
bytes at offset `((y * width) + x) * 4`. -/
def draw_mandelbrot_set (v : ComplexPlaneView) (width height : ℕ) : List ℕ :=
  (List.range height).flatMap fun y =>
    (List.range width).flatMap fun x =>
      let c := pixelToComplex v width height x y
      colorMap (escapeCount c.1 c.2)

/-- The byte offset of pixel `(x, y)`:
`let pixel_index = ((y * width) + x) as usize * 4` (src/main.rs line 216). -/
def pixel_index (x y width : ℕ) : ℕ :=
  ((y * width) + x) * 4

/-- Spec-side rendering of the Color Mapper with `round`, following the
spec's words: `r = round(9·(1−n)·n³·255)`, `g = round(15·(1−n)²·n²·255)`,
`b = round(8.5·(1−n)³·n·255)`, alpha 255, black at `MAX_ITERATIONS`.
This is the comparison definition for the refinement claim about the
Color Mapper; the code-side definition is `colorMap`. -/
def colorSpecRound (i : ℕ) : List ℕ :=
  if i = MAX_ITERATIONS then
    [0, 0, 0, 255]
  else
    let n : ℚ := (i : ℚ) / (MAX_ITERATIONS : ℚ)
    [Int.toNat (round (9 * (1 - n) * n ^ 3 * 255)),
     Int.toNat (round (15 * (1 - n) ^ 2 * n ^ 2 * 255)),
     Int.toNat (round (8.5 * (1 - n) ^ 3 * n * 255)),
     255]

/-- The spec's Color-Mapper formulas with `round` replaced by the floor
(truncation toward zero of a nonnegative value), which is what the code's
`as u8` cast performs; the comparison target of the amended Color-Mapper
claim. -/
def colorSpecFloor (i : ℕ) : List ℕ :=
  if i = MAX_ITERATIONS then
    [0, 0, 0, 255]
  else
    let n : ℚ := (i : ℚ) / (MAX_ITERATIONS : ℚ)
    [Int.toNat ⌊9 * (1 - n) * n ^ 3 * 255⌋,
     Int.toNat ⌊15 * (1 - n) ^ 2 * n ^ 2 * 255⌋,
     Int.toNat ⌊8.5 * (1 - n) ^ 3 * n * 255⌋,
     255]

/-- One view-mutating input event of the `Update` schedule: a drag step
handled by `handle_panning` (stored previous position and current position)
or a scroll event handled by `handle_zoom` (optional cursor position and
vertical scroll delta). -/
inductive InputEvent where
  | pan (last current : ℚ × ℚ)
  | scroll (cursor_pos : Option (ℚ × ℚ)) (scroll_y : ℚ)

/-- Dispatch of one `InputEvent` to the controller that handles it
(src/main.rs lines 98-150). -/
def applyEvent (width height : ℚ) (v : ComplexPlaneView) :
    InputEvent → ComplexPlaneView
  | .pan last current => (handle_panning v width true [current] (some last)).1
  | .scroll cursor_pos scroll_y => handle_zoom v width height cursor_pos scroll_y

/-- A sequence of input events applied in arrival order. -/
def applyEvents (width height : ℚ) (v : ComplexPlaneView)
    (es : List InputEvent) : ComplexPlaneView :=
  es.foldl (applyEvent width height) v

/-- An event's scroll delta keeps the zoom factor `1 - scroll_y * 0.1`
strictly positive, i.e. the delta is below 10 (pan events impose nothing). -/
def scrollOK : InputEvent → Bool
  | .pan _ _ => true
  | .scroll _ scroll_y => decide (scroll_y < 10)

/-- The pixel buffer owned by the displayed `Image`: dimensions plus the
row-major RGBA byte data (src/main.rs lines 158-166, 174-176). -/
structure ImageBuffer where
  width : ℕ
  height : ℕ
  data : List ℕ

/-- Modelled from the spec: the reallocation done by the external image
`resize` call is not part of this repository's source; per the spec the
buffer is "resized (reallocated, contents invalidated) on every resize
notification" with "length = width × height × 4". -/
def ImageBuffer.resizeTo (_img : ImageBuffer) (w h : ℕ) : ImageBuffer :=
  ⟨w, h, List.replicate (w * h * 4) 0⟩

/-- `fn on_window_resized` (src/main.rs lines 153-168): reads the last
resize event of the tick, if any, and resizes the image to its dimensions.
The view is not an input of the system at all; it is threaded through here
untouched to state that resizing leaves it unchanged. -/
def on_window_resized (v : ComplexPlaneView) (img : ImageBuffer)
    (events : List (ℕ × ℕ)) : ComplexPlaneView × ImageBuffer :=
  match events.getLast? with
  | some (w, h) => (v, img.resizeTo w h)
  | none => (v, img)

/-- A concrete view used by the zoom-anchor counterexample: center `(0, 0)`,
scale `2`. -/
def testView : ComplexPlaneView := { centerX := 0, centerY := 0, scale := 2 }

/- ## Helper lemmas -/

lemma escapeGo_step {cx cy zx zy : ℚ} {i : ℕ}
    (h : zx * zx + zy * zy < 4 ∧ i < MAX_ITERATIONS) :
    escapeGo cx cy zx zy i
      = escapeGo cx cy (zx * zx - zy * zy + cx) (2 * zx * zy + cy) (i + 1) := by
  rw [escapeGo, dif_pos h]

lemma escapeGo_stop {cx cy zx zy : ℚ} {i : ℕ}
    (h : ¬ (zx * zx + zy * zy < 4 ∧ i < MAX_ITERATIONS)) :
    escapeGo cx cy zx zy i = i := by
  rw [escapeGo, dif_neg h]

lemma escapeGo_zero : ∀ k i, i + k = MAX_ITERATIONS →
    escapeGo 0 0 0 0 i = MAX_ITERATIONS := by
  intro k
  induction k with
  | zero => intro i hi; rw [escapeGo_stop (by omega)]; omega
  | succ k ih =>
    intro i hi
    rw [escapeGo_step (by constructor <;> [norm_num; omega])]
    norm_num
    exact ih (i + 1) (by omega)

lemma escapeGo_neg_one : ∀ k i, i + 2 * k = MAX_ITERATIONS →
    escapeGo (-1) 0 0 0 i = MAX_ITERATIONS := by
  intro k
  induction k with
  | zero => intro i hi; rw [escapeGo_stop (by omega)]; omega
  | succ k ih =>
    intro i hi
    rw [escapeGo_step (by constructor <;> [norm_num; omega])]
    norm_num
    rw [escapeGo_step (by constructor <;> [norm_num; omega])]
    norm_num
    exact ih (i + 2) (by omega)

lemma escapeGo_le (cx cy : ℚ) :
    ∀ k zx zy i, MAX_ITERATIONS - i ≤ k → i ≤ MAX_ITERATIONS →
      escapeGo cx cy zx zy i ≤ MAX_ITERATIONS := by
  intro k
  induction k with
  | zero =>
    intro zx zy i hk hi
    rw [escapeGo_stop (by omega)]
    exact hi
  | succ k ih =>
    intro zx zy i hk hi
    by_cases h : zx * zx + zy * zy < 4 ∧ i < MAX_ITERATIONS
    · rw [escapeGo_step h]
      exact ih _ _ (i + 1) (by omega) (by omega)
    · rw [escapeGo_stop h]
      exact hi

lemma rustCastU8_le (x : ℚ) : rustCastU8 x ≤ 255 := by
  unfold rustCastU8
  split
  · omega
  · exact min_le_left _ _

lemma rustCastU8_eq_floor {x : ℚ} (h0 : 0 ≤ x) (h255 : x ≤ 255) :
    rustCastU8 x = Int.toNat ⌊x⌋ := by
  unfold rustCastU8
  rw [if_neg (not_lt.2 h0)]
  refine min_eq_right ?_
  have : ⌊x⌋ ≤ 255 := le_trans (Int.floor_le_floor h255) (by norm_num)
  omega

lemma r_poly_le_one {n : ℚ} (h0 : 0 ≤ n) (_h1 : n ≤ 1) :
    9 * (1 - n) * n * n * n ≤ 1 := by
  nlinarith [sq_nonneg (n * (n - 3/4)), mul_nonneg h0 (sq_nonneg (n - 3/4)),
    sq_nonneg (n - 3/4)]

lemma g_poly_le_one {n : ℚ} (h0 : 0 ≤ n) (h1 : n ≤ 1) :
    15 * (1 - n) * (1 - n) * n * n ≤ 1 := by
  nlinarith [mul_nonneg h0 (by linarith : (0:ℚ) ≤ 1 - n), sq_nonneg (1 - 2*n),
    sq_nonneg (n * (1 - n) - 1/4)]

lemma b_poly_le_one {n : ℚ} (_h0 : 0 ≤ n) (h1 : n ≤ 1) :
    8.5 * (1 - n) * (1 - n) * (1 - n) * n ≤ 1 := by
  nlinarith [sq_nonneg ((1 - n) * (1/4 - n)),
    mul_nonneg (by linarith : (0:ℚ) ≤ 1 - n) (sq_nonneg (1/4 - n)),
    sq_nonneg (1/4 - n)]

lemma colorMap_length (i : ℕ) : (colorMap i).length = 4 := by
  unfold colorMap
  split <;> rfl

lemma flatMap_const_length (w : ℕ) (f : ℕ → List ℕ)
    (h : ∀ x, (f x).length = 4) :
    ((List.range w).flatMap f).length = w * 4 := by
  rw [List.length_flatMap]
  have hrep : List.map (List.length ∘ f) (List.range w) = List.replicate w 4 :=
    List.eq_replicate_iff.2 ⟨by simp, by
      intro b hb
      simp only [List.mem_map, Function.comp] at hb
      obtain ⟨a, _, rfl⟩ := hb
      exact h a⟩
  rw [hrep, List.sum_replicate, smul_eq_mul]

lemma draw_mandelbrot_set_length (v : ComplexPlaneView) (width height : ℕ) :
    (draw_mandelbrot_set v width height).length = width * height * 4 := by
  unfold draw_mandelbrot_set
  rw [List.length_flatMap]
  have hrow : ∀ y : ℕ,
      ((List.range width).flatMap fun x =>
        let c := pixelToComplex v width height x y
        colorMap (escapeCount c.1 c.2)).length = width * 4 := by
    intro y
    exact flatMap_const_length width _ fun x => colorMap_length _
  have hrep : List.map
      (List.length ∘ fun y => (List.range width).flatMap fun x =>
        let c := pixelToComplex v width height x y
        colorMap (escapeCount c.1 c.2)) (List.range height)
      = List.replicate height (width * 4) :=
    List.eq_replicate_iff.2 ⟨by simp, by
      intro b hb
      simp only [List.mem_map, Function.comp] at hb
      obtain ⟨a, _, rfl⟩ := hb
      exact hrow a⟩
  rw [hrep, List.sum_replicate, smul_eq_mul]
  ring

lemma applyEvent_scale_pos (width height : ℚ) (v : ComplexPlaneView)
    (e : InputEvent) (hv : 0 < v.scale) (he : scrollOK e = true) :
    0 < (applyEvent width height v e).scale := by
  cases e with
  | pan last current =>
    simpa [applyEvent, handle_panning] using hv
  | scroll cursor_pos scroll_y =>
    cases cursor_pos with
    | none => simpa [applyEvent, handle_zoom] using hv
    | some p =>
      obtain ⟨px, py⟩ := p
      have hy : scroll_y < 10 := by simpa [scrollOK] using he
      simp only [applyEvent, handle_zoom]
      exact mul_pos hv (by linarith)

lemma applyEvents_scale_pos (width height : ℚ) :
    ∀ (es : List InputEvent) (v : ComplexPlaneView), 0 < v.scale →
      es.all scrollOK = true → 0 < (applyEvents width height v es).scale := by
  intro es
  induction es with
  | nil => intro v hv _; simpa [applyEvents] using hv
  | cons e es ih =>
    intro v hv hall
    simp only [List.all_cons, Bool.and_eq_true] at hall
    simp only [applyEvents, List.foldl_cons]
    exact ih (applyEvent width height v e)
      (applyEvent_scale_pos width height v e hv hall.1) hall.2

/- ## Claims -/

/-- C1 (counterexample): the zoom-anchor invariant fails for the renderer's
Coordinate Mapper (`map_range` over `0 ..= width-1`), because `handle_zoom`
derives the cursor's plane coordinate by dividing by `width`, not `width-1`.
With the view centered at `(0,0)` with scale `2` (so `scale > 0`), a `3×3`
display, cursor pixel `(2,2)` (inside the display area) and scroll delta `5`,
the pre-zoom mapped x-coordinate is `1` but the post-zoom one is `2/3`,
a relative gap of `1/3`, far beyond a `1e-9` relative epsilon. -/
theorem c1_zoom_anchor_counterexample :
    0 < testView.scale ∧
    (pixelToComplex testView 3 3 2 2).1 = 1 ∧
    (pixelToComplex (handle_zoom testView 3 3 (some (2, 2)) 5) 3 3 2 2).1
      = 2 / 3 ∧
    ¬ |(1 : ℚ) - 2 / 3| ≤ |(1 : ℚ)| / 1000000000 := by
  have habs : ¬ |(1 : ℚ) - 2 / 3| ≤ |(1 : ℚ)| / 1000000000 := by
    rw [abs_of_pos (by norm_num : (0:ℚ) < 1 - 2/3), abs_of_pos one_pos]
    norm_num
  refine ⟨by norm_num [testView], ?_, ?_, habs⟩
  · norm_num [pixelToComplex, map_range, testView]
  · norm_num [pixelToComplex, map_range, handle_zoom, cursorToComplex, testView]

/-- C1 (amended): the zoom-anchor invariant holds exactly for the cursor→plane
conversion that `handle_zoom` itself uses (dividing by `width`/`height`):
for every view, display size, cursor pixel and scroll delta, that conversion
yields the same plane coordinate under the pre-zoom and post-zoom views. -/
theorem c1_zoom_anchor (v : ComplexPlaneView) (width height px py dy : ℚ) :
    cursorToComplex (handle_zoom v width height (some (px, py)) dy)
        width height px py
      = cursorToComplex v width height px py := by
  simp only [handle_zoom, cursorToComplex, Prod.mk.injEq]
  constructor <;> ring

/-- C2 (counterexample): a single scroll event with delta `10` (cursor over
the display) makes `zoom_factor = 1 - 10·0.1 = 0`, so the scale of the
default view collapses to `0`: `scale > 0` does not survive arbitrary real
scroll deltas. -/
theorem c2_scale_counterexample :
    (applyEvents 800 600 ComplexPlaneView.default
        [.scroll (some (400, 300)) 10]).scale = 0 := by
  norm_num [applyEvents, applyEvent, handle_zoom, ComplexPlaneView.default]

/-- C2 (amended): starting from the default view (scale `3.5`), after any
sequence of pan and zoom updates all of whose scroll deltas are below `10`
(so every `zoom_factor = 1 - delta·0.1` is strictly positive), the scale
remains strictly positive. -/
theorem c2_scale_positive (width height : ℚ) (es : List InputEvent)
    (h : es.all scrollOK = true) :
    0 < (applyEvents width height ComplexPlaneView.default es).scale :=
  applyEvents_scale_pos width height es ComplexPlaneView.default
    (by norm_num [ComplexPlaneView.default]) h

/-- C2 (witness): a concrete pan followed by a scroll of delta `5` from the
default view keeps the scale positive. -/
theorem c2_scale_positive_witness :
    ([InputEvent.pan (0, 0) (3, 4),
      InputEvent.scroll (some (400, 300)) 5].all scrollOK = true) ∧
    0 < (applyEvents 800 600 ComplexPlaneView.default
        [InputEvent.pan (0, 0) (3, 4),
         InputEvent.scroll (some (400, 300)) 5]).scale :=
  ⟨by decide, c2_scale_positive 800 600
    [InputEvent.pan (0, 0) (3, 4), InputEvent.scroll (some (400, 300)) 5]
    (by decide)⟩

/-- C3: the code has no degenerate-geometry guard.  With a `1×2` buffer the
render pass still writes all `1·2·4` bytes, and even under the exact-field
idealisation (where the zero-denominator `map_range` division totalises to
`0` instead of Rust's NaN) the single column maps to the left view edge
`center.x - scale/2`, not to the view center as the claim requires. -/
theorem c3_degenerate_not_guarded :
    (draw_mandelbrot_set ComplexPlaneView.default 1 2).length = 1 * 2 * 4 ∧
    (pixelToComplex ComplexPlaneView.default 1 2 0 0).1
      ≠ ComplexPlaneView.default.centerX := by
  constructor
  · exact draw_mandelbrot_set_length ComplexPlaneView.default 1 2
  · norm_num [pixelToComplex, map_range, ComplexPlaneView.default]

/-- C4: the Escape-Time Evaluator returns exactly `MAX_ITERATIONS` at
`c = (0,0)`, exactly `1` at `c = (2,0)`, and exactly `MAX_ITERATIONS` at
`c = (-1,0)`. -/
theorem c4_escape_reference_points :
    escapeCount 0 0 = MAX_ITERATIONS ∧
    escapeCount 2 0 = 1 ∧
    escapeCount (-1) 0 = MAX_ITERATIONS := by
  refine ⟨?_, ?_, ?_⟩
  · exact escapeGo_zero MAX_ITERATIONS 0 rfl
  · unfold escapeCount
    rw [escapeGo_step (by constructor <;> norm_num [MAX_ITERATIONS])]
    norm_num
    rw [escapeGo_stop (by norm_num)]
  · exact escapeGo_neg_one 256 0 (by norm_num [MAX_ITERATIONS])

/-- C5 (counterexample): the code's `as u8` cast truncates, it does not
round.  At `i = 128` (`n = 1/4`) the red channel of the code is
`⌊6885/256⌋ = 26`, while the spec's `round(9·(1−n)·n³·255) = 27`. -/
theorem c5_round_counterexample :
    (colorMap 128).head? = some 26 ∧
    (colorSpecRound 128).head? = some 27 ∧
    colorMap 128 ≠ colorSpecRound 128 := by
  have h1 : (colorMap 128).head? = some 26 := by
    norm_num [colorMap, MAX_ITERATIONS, rustCastU8]
    rfl
  have h2 : (colorSpecRound 128).head? = some 27 := by
    norm_num [colorSpecRound, MAX_ITERATIONS, round_eq]
    rfl
  refine ⟨h1, h2, fun hEq => ?_⟩
  rw [hEq, h2] at h1
  exact absurd (Option.some.inj h1) (by norm_num)

/-- C5 (amended): the Color Mapper returns exactly `(0,0,0,255)` at
`MAX_ITERATIONS`; for `i < MAX_ITERATIONS` it returns exactly the spec's
polynomial palette with the rounding replaced by truncation (floor), with
alpha `255`, and every channel value lies in `[0, 255]`. -/
theorem c5_color_map (i : ℕ) (h : i < MAX_ITERATIONS) :
    colorMap MAX_ITERATIONS = [0, 0, 0, 255] ∧
    colorMap i = colorSpecFloor i ∧
    (colorMap i).all (fun c => c ≤ 255) = true := by
  have hne : i ≠ MAX_ITERATIONS := Nat.ne_of_lt h
  set n : ℚ := (i : ℚ) / (MAX_ITERATIONS : ℚ) with hn
  have hn0 : 0 ≤ n := by positivity
  have hn1 : n ≤ 1 := by
    rw [hn, div_le_one (by norm_num [MAX_ITERATIONS])]
    have : (i : ℚ) ≤ (MAX_ITERATIONS : ℚ) := by exact_mod_cast le_of_lt h
    exact this
  have h1n : (0:ℚ) ≤ 1 - n := by linarith
  have h255 : (0:ℚ) ≤ 255 := by norm_num
  have hr0 : (0:ℚ) ≤ 9 * (1 - n) * n * n * n * 255 :=
    mul_nonneg (mul_nonneg (mul_nonneg (mul_nonneg
      (by linarith : (0:ℚ) ≤ 9 * (1 - n)) hn0) hn0) hn0) h255
  have hg0 : (0:ℚ) ≤ 15 * (1 - n) * (1 - n) * n * n * 255 :=
    mul_nonneg (mul_nonneg (mul_nonneg (mul_nonneg
      (by linarith : (0:ℚ) ≤ 15 * (1 - n)) h1n) hn0) hn0) h255
  have hb0 : (0:ℚ) ≤ 8.5 * (1 - n) * (1 - n) * (1 - n) * n * 255 :=
    mul_nonneg (mul_nonneg (mul_nonneg (mul_nonneg
      (by linarith : (0:ℚ) ≤ 8.5 * (1 - n)) h1n) h1n) hn0) h255
  have hr255 : 9 * (1 - n) * n * n * n * 255 ≤ 255 := by
    nlinarith [r_poly_le_one hn0 hn1]
  have hg255 : 15 * (1 - n) * (1 - n) * n * n * 255 ≤ 255 := by
    nlinarith [g_poly_le_one hn0 hn1]
  have hb255 : 8.5 * (1 - n) * (1 - n) * (1 - n) * n * 255 ≤ 255 := by
    nlinarith [b_poly_le_one hn0 hn1]
  refine ⟨by simp [colorMap], ?_, ?_⟩
  · simp only [colorMap, colorSpecFloor, if_neg hne, ← hn]
    rw [rustCastU8_eq_floor hr0 hr255, rustCastU8_eq_floor hg0 hg255,
      rustCastU8_eq_floor hb0 hb255]
    have e1 : 9 * (1 - n) * n * n * n * 255 = 9 * (1 - n) * n ^ 3 * 255 := by
      ring
    have e2 : 15 * (1 - n) * (1 - n) * n * n * 255
        = 15 * (1 - n) ^ 2 * n ^ 2 * 255 := by ring
    have e3 : 8.5 * (1 - n) * (1 - n) * (1 - n) * n * 255
        = 8.5 * (1 - n) ^ 3 * n * 255 := by ring
    rw [e1, e2, e3]
  · simp only [colorMap, if_neg hne, ← hn, List.all_cons, List.all_nil,
      Bool.and_eq_true, decide_eq_true_eq]
    exact ⟨rustCastU8_le _, rustCastU8_le _, rustCastU8_le _, by norm_num,
      trivial⟩

/-- C5 (witness): the amended Color-Mapper claim instantiated at `i = 128`. -/
theorem c5_color_map_witness :
    128 < MAX_ITERATIONS ∧
    (colorMap MAX_ITERATIONS = [0, 0, 0, 255] ∧
     colorMap 128 = colorSpecFloor 128 ∧
     (colorMap 128).all (fun c => c ≤ 255) = true) :=
  ⟨by decide, c5_color_map 128 (by decide)⟩

/-- C6: a drag step by pixel delta `(dx, dy)` followed by a drag step by
`(-dx, -dy)` (the cursor returning to its starting pixel), with the scale
and window width unchanged in between, returns the view center exactly to
its original value, and the scale is untouched throughout. -/
theorem c6_pan_round_trip (v : ComplexPlaneView) (w : ℚ) (p0 : ℚ × ℚ)
    (dx dy : ℚ) :
    let s1 := handle_panning v w true [(p0.1 + dx, p0.2 + dy)] (some p0)
    let s2 := handle_panning s1.1 w true [p0] s1.2
    s2.1.centerX = v.centerX ∧ s2.1.centerY = v.centerY ∧
      s2.1.scale = v.scale := by
  intro s1 s2
  simp only [s2, s1, handle_panning, List.getLast?_singleton, if_true]
  exact ⟨by ring, by ring, trivial⟩

/-- C7: for every complex input the escape loop terminates (it is a total
function, defined by recursion on `MAX_ITERATIONS - i`) and the returned
iteration count is at most `MAX_ITERATIONS`; being a natural number it
therefore lies in `[0, MAX_ITERATIONS]`. -/
theorem c7_escape_bounded (cx cy : ℚ) :
    escapeCount cx cy ≤ MAX_ITERATIONS :=
  escapeGo_le cx cy MAX_ITERATIONS 0 0 0 (by omega) (by omega)

/-- C8: a scroll event arriving with no available cursor position is dropped:
`handle_zoom` returns the view unchanged (both center and scale), with no
error path. -/
theorem c8_scroll_without_cursor (v : ComplexPlaneView) (width height dy : ℚ) :
    handle_zoom v width height none dy = v :=
  rfl

/-- C9: a resize notification only changes the pixel buffer: the handler
sets the buffer's dimensions to the event's and reallocates its data to
`width · height · 4` bytes, while the view (center and scale) is unchanged. -/
theorem c9_resize_preserves_view (v : ComplexPlaneView) (img : ImageBuffer)
    (prior : List (ℕ × ℕ)) (w h : ℕ) :
    (on_window_resized v img (prior ++ [(w, h)])).1 = v ∧
    (on_window_resized v img (prior ++ [(w, h)])).2.width = w ∧
    (on_window_resized v img (prior ++ [(w, h)])).2.height = h ∧
    (on_window_resized v img (prior ++ [(w, h)])).2.data.length
      = w * h * 4 := by
  simp [on_window_resized, ImageBuffer.resizeTo]

/-- C10: for every pixel `(x, y)` with `x < width` and `y < height`, the
4-byte write at offset `((y·width) + x)·4` stays within the rendered
buffer, whose length is `width·height·4`. -/
theorem c10_pixel_write_in_bounds (v : ComplexPlaneView) (width height x y : ℕ)
    (hx : x < width) (hy : y < height) :
    pixel_index x y width + 4 ≤ (draw_mandelbrot_set v width height).length := by
  rw [draw_mandelbrot_set_length]
  unfold pixel_index
  have h1 : y * width + x + 1 ≤ height * width := by
    calc y * width + x + 1 ≤ y * width + width := by omega
    _ = (y + 1) * width := by ring
    _ ≤ height * width := Nat.mul_le_mul_right width hy
  calc ((y * width) + x) * 4 + 4 = (y * width + x + 1) * 4 := by ring
  _ ≤ (height * width) * 4 := Nat.mul_le_mul_right 4 h1
  _ = width * height * 4 := by ring

/-- C10 (witness): the in-bounds property instantiated at pixel `(1, 1)` of a
`2×2` buffer rendered from the default view. -/
theorem c10_pixel_write_in_bounds_witness :
    1 < 2 ∧ 1 < 2 ∧
    pixel_index 1 1 2 + 4
      ≤ (draw_mandelbrot_set ComplexPlaneView.default 2 2).length :=
  ⟨by decide, by decide,
    c10_pixel_write_in_bounds ComplexPlaneView.default 2 2 1 1
      (by decide) (by decide)⟩

end BevyFractal
